import Mathlib

/-!
Verification development for the CAN bus-log ingestion and signal-decode engine
(`services/canParser.ts`, `services/matrixParser.ts` and the parser variant with
the custom fixed-column recognizer).

The TypeScript sources are shallowly embedded: JavaScript 32-bit bitwise
arithmetic is modelled exactly (`toInt32`/`toUint32` wrap-around, shift counts
taken mod 32), machine floats used for scale/offset/physical values are
modelled by exact rationals `ℚ` (`parseFloat` results that would be `NaN` are
represented through `Option ℚ`), and each regular expression is hand-translated
into a deterministic character-level matcher with the same acceptance and
capture behaviour on its anchored, backtracking-free shape.
-/

namespace CanLog

/-! ## JavaScript 32-bit integer semantics -/

/-- ECMAScript ToUint32: the argument reduced modulo 2^32 (result in 0..2^32-1). -/
def toUint32 (n : Int) : Nat := (n % (4294967296 : Int)).toNat

/-- ECMAScript ToInt32: the argument reduced modulo 2^32 into -2^31..2^31-1. -/
def toInt32 (n : Int) : Int :=
  let u := toUint32 n
  if u < 2147483648 then (u : Int) else (u : Int) - 4294967296

/-- JavaScript bitwise OR `a | b` (operands coerced to 32 bits). -/
def jsOr (a b : Int) : Int := toInt32 ((toUint32 a) ||| (toUint32 b) : Nat)

/-- JavaScript bitwise AND `a & b` (operands coerced to 32 bits). -/
def jsAnd (a b : Int) : Int := toInt32 ((toUint32 a) &&& (toUint32 b) : Nat)

/-- JavaScript left shift `a << b`: 32-bit result, shift count taken mod 32. -/
def jsShl (a b : Int) : Int := toInt32 (((toUint32 a) <<< (toUint32 b % 32) : Nat) : Int)

/-- JavaScript signed right shift `a >> b`: arithmetic shift of the 32-bit value,
shift count taken mod 32 (floor division by the corresponding power of two). -/
def jsShr (a b : Int) : Int := Int.fdiv (toInt32 a) ((2 : Int) ^ (toUint32 b % 32))

/-! ## Character classes and string helpers

`\s` is modelled on the ASCII whitespace characters; all character classes used
by the source regexes are ASCII, and case mapping is the ASCII one, written as
an explicit table. -/

def jsSpace (c : Char) : Bool :=
  c == ' ' || c == '\t' || c == '\n' || c == '\r' || c == '\x0b' || c == '\x0c'

def isHexDigitC (c : Char) : Bool :=
  ('0' ≤ c && c ≤ '9') || ('a' ≤ c && c ≤ 'f') || ('A' ≤ c && c ≤ 'F')

/-- The `\w` class: `[A-Za-z0-9_]`. -/
def isWordC (c : Char) : Bool :=
  ('0' ≤ c && c ≤ '9') || ('a' ≤ c && c ≤ 'z') || ('A' ≤ c && c ≤ 'Z') || c == '_'

/-- The `[\d.]` class. -/
def isDigitDot (c : Char) : Bool := c.isDigit || c == '.'

/-- The `[\d.-]` class. -/
def isNumC (c : Char) : Bool := c.isDigit || c == '.' || c == '-'

/-- The `[0-9A-Fa-fxX]` class. -/
def isHexOrX (c : Char) : Bool := isHexDigitC c || c == 'x' || c == 'X'

/-- The `[0-9A-Fa-f\s]` class. -/
def isHexSp (c : Char) : Bool := isHexDigitC c || jsSpace c

/-- ASCII upper-casing of one character (JavaScript `toUpperCase` on the ASCII
characters produced by the matched groups): codes 97–122 (`a`–`z`) are shifted
down by 32. -/
def upChar (c : Char) : Char :=
  if 97 ≤ c.toNat ∧ c.toNat ≤ 122 then Char.ofNat (c.toNat - 32) else c

/-- ASCII lower-casing of one character: codes 65–90 (`A`–`Z`) are shifted up
by 32. -/
def lowChar (c : Char) : Char :=
  if 65 ≤ c.toNat ∧ c.toNat ≤ 90 then Char.ofNat (c.toNat + 32) else c

/-- JavaScript `String.prototype.toUpperCase` (ASCII fragment). -/
def jsToUpper (s : String) : String := ⟨s.data.map upChar⟩

/-- JavaScript `String.prototype.toLowerCase` (ASCII fragment). -/
def jsToLower (s : String) : String := ⟨s.data.map lowChar⟩

/-- JavaScript `String.prototype.trim`. -/
def jsTrim (s : String) : String :=
  ⟨((s.data.dropWhile jsSpace).reverse.dropWhile jsSpace).reverse⟩

/-- JavaScript `String.prototype.startsWith`. -/
def jsStartsWith (p s : String) : Bool := p.data.isPrefixOf s.data

/-- Split off the longest prefix of characters satisfying `p`. -/
def spanP (p : Char → Bool) (cs : List Char) : List Char × List Char :=
  (cs.takeWhile p, cs.dropWhile p)

/-- Whether `needle` occurs as a contiguous substring of `hay`
(JavaScript `String.prototype.includes`). -/
def containsL (needle : List Char) : List Char → Bool
  | [] => needle.isEmpty
  | c :: rest => needle.isPrefixOf (c :: rest) || containsL needle rest

def digitVal (c : Char) : Nat := c.toNat - 48

def digitsToNat (cs : List Char) : Nat := cs.foldl (fun a c => 10 * a + digitVal c) 0

def hexVal (c : Char) : Nat :=
  if '0' ≤ c && c ≤ '9' then c.toNat - 48
  else if 'a' ≤ c && c ≤ 'f' then c.toNat - 87
  else if 'A' ≤ c && c ≤ 'F' then c.toNat - 55
  else 0

def hexToNat (cs : List Char) : Nat := cs.foldl (fun a c => 16 * a + hexVal c) 0

/-- JavaScript `parseFloat` on the strings matched by the timestamp and numeric
groups (digits, an optional dot and fraction, an optional leading minus;
the longest valid numeric prefix counts). `none` stands for `NaN`;
`ℚ` has no `NaN`, so the value is kept exact. -/
def jsParseFloat (s : String) : Option ℚ :=
  let core : List Char → Option ℚ := fun cs =>
    let (ip, cs1) := spanP Char.isDigit cs
    match cs1 with
    | '.' :: cs2 =>
        let (fp, _) := spanP Char.isDigit cs2
        if ip.isEmpty && fp.isEmpty then none
        else some ((digitsToNat ip : ℚ) + (digitsToNat fp : ℚ) / (10 : ℚ) ^ fp.length)
    | _ => if ip.isEmpty then none else some (digitsToNat ip : ℚ)
  match s.data with
  | '-' :: cs => (core cs).map Neg.neg
  | cs => core cs

/-- JavaScript `parseInt(s, 16)`: optional whitespace and sign, an optional
`0x`/`0X` prefix, then the longest run of hex digits; `none` stands for `NaN`. -/
def jsParseInt16 (s : String) : Option Int :=
  let cs := s.data.dropWhile jsSpace
  let (sign, cs) : Int × List Char :=
    match cs with
    | '-' :: r => (-1, r)
    | '+' :: r => (1, r)
    | r => (1, r)
  let cs :=
    match cs with
    | '0' :: 'x' :: r => r
    | '0' :: 'X' :: r => r
    | _ => cs
  let (h, _) := spanP isHexDigitC cs
  if h.isEmpty then none else some (sign * (hexToNat h : Int))

/-- The `Uint8Array` element coercion: `NaN` becomes 0, other values are reduced
modulo 256. -/
def jsToUint8 (o : Option Int) : Int :=
  match o with
  | none => 0
  | some n => n % 256

/-! ## Data model (`types.ts`) -/

/-- `SignalDefinition` from `types.ts`. Numeric fields are exact rationals. -/
structure SignalDefinition where
  name : String
  startBit : Nat
  length : Nat
  isLittleEndian : Bool
  isSigned : Bool
  scale : ℚ
  offset : ℚ
  min : ℚ
  max : ℚ
  unit : String
deriving DecidableEq, Repr

/-- `MessageDefinition` from `types.ts`; the `signals` object is modelled as an
association list in insertion order. -/
structure MessageDefinition where
  name : String
  dlc : Nat
  signals : List (String × SignalDefinition)
deriving DecidableEq, Repr

/-- `CanMatrix` from `types.ts`: message id (decimal string) to definition,
modelled as an association list in insertion order. -/
def CanMatrix := List (String × MessageDefinition)

/-- `CANMessage` from `types.ts`. `timestamp` is `none` when the source value
is `NaN`; `decoded` is `none` while absent. -/
structure CANMessage where
  timestamp : Option ℚ
  id : String
  dlc : Nat
  data : List String
  isTx : Bool
  decoded : Option (List (String × ℚ)) := none
deriving DecidableEq, Repr

instance : Inhabited CANMessage :=
  ⟨{ timestamp := none, id := "", dlc := 0, data := [], isTx := false, decoded := none }⟩

/-! ## Association-list primitives modelling JavaScript object update/lookup -/

/-- Property write `m[k] = v`: replace in place if the key exists, else append. -/
def alInsert {β : Type} : List (String × β) → String → β → List (String × β)
  | [], k, v => [(k, v)]
  | (k', v') :: rest, k, v =>
      if k' = k then (k, v) :: rest else (k', v') :: alInsert rest k v

/-- Property read `m[k]`. -/
def alLookup {β : Type} : List (String × β) → String → Option β
  | [], _ => none
  | (k', v) :: rest, k => if k' = k then some v else alLookup rest k

/-- In-place modification of the value stored at a key, if present. -/
def alUpdate {β : Type} : List (String × β) → String → (β → β) → List (String × β)
  | [], _, _ => []
  | (k', v) :: rest, k, f =>
      if k' = k then (k', f v) :: rest else (k', v) :: alUpdate rest k f

/-! ## Signal extraction (`extractSignalValue` in `canParser.ts`) -/

/-- The little-endian (Intel) loop
`for (let i = 0; i < signal.length; i++) { ... }`:
`i` counts up, `fuel` is the number of remaining iterations
(`signal.length - i`). A bit whose byte index falls outside the payload is
skipped (`continue`). -/
def leScan (data : List Int) (s : SignalDefinition) : Nat → Int → Nat → Int
  | _, rawValue, 0 => rawValue
  | i, rawValue, fuel + 1 =>
      let bitIndex := s.startBit + i
      let byteIndex := bitIndex / 8
      if data.length ≤ byteIndex then
        leScan data s (i + 1) rawValue fuel
      else
        let bitInByte := bitIndex % 8
        let rawValue' :=
          if jsAnd (jsShr (data.getD byteIndex 0) (bitInByte : Int)) 1 ≠ 0 then
            jsOr rawValue (jsShl 1 (i : Int))
          else rawValue
        leScan data s (i + 1) rawValue' fuel

/-- The big-endian (Motorola) loop `for (let i = 0; i < 8 * 8; i++) { ... }`:
the 64-bit stream is scanned MSB-first per byte and the scan breaks as soon as
the byte index passes the end of the payload. -/
def beScan (data : List Int) (s : SignalDefinition) : Nat → Nat → Int → Nat → Int
  | _, _, rawValue, 0 => rawValue
  | i, bitCount, rawValue, fuel + 1 =>
      let byteIndex := i / 8
      if data.length ≤ byteIndex then rawValue
      else
        let bitInByte := 7 - i % 8
        if s.startBit ≤ i ∧ i < s.startBit + s.length then
          let rawValue' :=
            if jsAnd (jsShr (data.getD byteIndex 0) (bitInByte : Int)) 1 ≠ 0 then
              jsOr rawValue (jsShl 1 ((s.length : Int) - 1 - (bitCount : Int)))
            else rawValue
          beScan data s (i + 1) (bitCount + 1) rawValue' fuel
        else
          beScan data s (i + 1) bitCount rawValue fuel

/-- The raw (pre-scaling) value computed by `extractSignalValue`, including the
signed two's-complement adjustment
`if (signal.isSigned && (rawValue & (1 << (signal.length - 1)))) rawValue -= 1 << signal.length`. -/
def extractRawValue (data : List Int) (signal : SignalDefinition) : Int :=
  let rawValue : Int :=
    if signal.isLittleEndian then leScan data signal 0 0 signal.length
    else beScan data signal 0 0 0 64
  if signal.isSigned ∧ jsAnd rawValue (jsShl 1 ((signal.length : Int) - 1)) ≠ 0 then
    rawValue - jsShl 1 (signal.length : Int)
  else rawValue

/-- `extractSignalValue`: the raw value put through the linear conversion
`rawValue * signal.scale + signal.offset`. -/
def extractSignalValue (data : List Int) (signal : SignalDefinition) : ℚ :=
  (extractRawValue data signal : ℚ) * signal.scale + signal.offset

/-- `parseFloat(value.toPrecision(10))`: round to 10 significant decimal digits
(ties away from zero on the magnitude, as in ECMAScript `toPrecision`). -/
def toPrecision10 (q : ℚ) : ℚ :=
  if q = 0 then 0
  else
    let e : ℤ := Int.log 10 |q|
    let m : ℤ := round (|q| * (10 : ℚ) ^ (9 - e))
    (if q < 0 then -1 else 1) * (m : ℚ) * (10 : ℚ) ^ (e - 9)

/-! ## Decoding (`decodeMessages` in `canParser.ts`) -/

/-- `parseInt(message.id, 16).toString()`: the decimal canonical key of a hex
frame id (`"NaN"` when the id fails to parse). -/
def canonicalKey (id : String) : String :=
  match jsParseInt16 id with
  | none => "NaN"
  | some n => toString n

/-- The body of the `messages.map` callback in `decodeMessages`
(`messageId = parseInt(message.id, 16).toString()` is the lookup key). -/
def decodeOne (matrix : CanMatrix) (message : CANMessage) : CANMessage :=
  match alLookup matrix (canonicalKey message.id) with
  | none => message
  | some definition =>
      let dataBytes : List Int := message.data.map fun hex => jsToUint8 (jsParseInt16 hex)
      let decodedSignals :=
        definition.signals.foldl
          (fun acc p =>
            alInsert acc p.2.name (toPrecision10 (extractSignalValue dataBytes p.2)))
          []
      { message with decoded := some decodedSignals }

/-- `decodeMessages(messages, matrix)`. -/
def decodeMessages (messages : List CANMessage) (matrix : CanMatrix) : List CANMessage :=
  messages.map (decodeOne matrix)

/-- The shape contract of `decodeMessages` at index `i`: one output frame per
input frame in order; every field except `decoded` unchanged; `decoded`
populated exactly when the frame's identifier (hex text converted to the
decimal canonical key) has a `MessageDefinition` in the matrix, the frame
passing through entirely unchanged (in particular with `decoded` still absent,
not an empty mapping) when it does not. -/
def decodeShapeSpec (messages : List CANMessage) (matrix : CanMatrix) (i : Nat) : Prop :=
  (decodeMessages messages matrix).length = messages.length ∧
  ((decodeMessages messages matrix).getD i default).timestamp = (messages.getD i default).timestamp ∧
  ((decodeMessages messages matrix).getD i default).id = (messages.getD i default).id ∧
  ((decodeMessages messages matrix).getD i default).dlc = (messages.getD i default).dlc ∧
  ((decodeMessages messages matrix).getD i default).data = (messages.getD i default).data ∧
  ((decodeMessages messages matrix).getD i default).isTx = (messages.getD i default).isTx ∧
  ((alLookup matrix (canonicalKey (messages.getD i default).id)).isSome →
    ∃ dec, ((decodeMessages messages matrix).getD i default).decoded = some dec) ∧
  (alLookup matrix (canonicalKey (messages.getD i default).id) = none →
    (decodeMessages messages matrix).getD i default = messages.getD i default)

/-! ## Frame line recognizers

Each source regex is anchored (`^...$`) and built from character classes whose
boundaries make greedy matching deterministic, so each is translated into a
sequential character-level matcher with the same acceptance and captures. -/

/-- Captures of `LOG_REGEX`
`^\s*\((\d+(?:\.\d+)?)\)\s+\w+\s+([0-9A-Fa-f]+)#([0-9A-Fa-f]*)\s*$`. -/
structure LogGroups where
  ts : String
  id : String
  rawData : String
deriving DecidableEq, Repr

/-- Captures of `TRC_REGEX`
`^\s*\d+\)\s+(\d+(?:\.\d+)?)\s+(Rx|Tx)\s+([0-9A-Fa-fxX]+)\s+\d+\s*([0-9A-Fa-f\s]*)$`
(also the shape of `PCAN_V5_REGEX`, whose timestamp class is `[\d.]+` and whose
id class has no `x`/`X`). -/
structure TrcGroups where
  ts : String
  dir : String
  id : String
  rawData : String
deriving DecidableEq, Repr

/-- Captures of `PCAN_VIEW_REGEX`
`^\s*\d+\s+([\d.]+)\s+\w+\s+([0-9A-Fa-fxX]+)\s+(Rx|Tx)\s+\d+\s*([0-9A-Fa-f\s]*)$`. -/
structure ViewGroups where
  ts : String
  id : String
  dir : String
  rawData : String
deriving DecidableEq, Repr

/-- Captures of `CUSTOM_FORMAT_REGEX`
`^\s*(\d+)\s+(0x[0-9A-Fa-f]+|[0-9A-Fa-f]+)\s+(\d+)\s+([0-9A-Fa-f\s]*)\s*$`. -/
structure CustomGroups where
  ts : String
  id : String
  dlc : String
  rawData : String
deriving DecidableEq, Repr

/-- The `(Rx|Tx)` alternative. -/
def matchDir (cs : List Char) : Option (String × List Char) :=
  match cs with
  | 'R' :: 'x' :: rest => some ("Rx", rest)
  | 'T' :: 'x' :: rest => some ("Tx", rest)
  | _ => none

/-- The `(\d+(?:\.\d+)?)` timestamp group: integer part, then an optional
fraction that only counts when at least one digit follows the dot. Returns the
captured characters and the rest. -/
def matchNumDotNum (cs : List Char) : Option (List Char × List Char) :=
  let (ip, cs1) := spanP Char.isDigit cs
  if ip.isEmpty then none
  else
    match cs1 with
    | '.' :: cs2 =>
        match spanP Char.isDigit cs2 with
        | ([], _) => some (ip, cs1)
        | (fp, cs3) => some (ip ++ '.' :: fp, cs3)
    | _ => some (ip, cs1)

/-- A one-or-more character-class group: fails when empty. -/
def matchClass1 (p : Char → Bool) (cs : List Char) : Option (List Char × List Char) :=
  let (g, rest) := spanP p cs
  if g.isEmpty then none else some (g, rest)

/-- `\s+`: at least one whitespace character. -/
def matchSpaces1 (cs : List Char) : Option (List Char) :=
  match cs with
  | c :: rest => if jsSpace c then some (rest.dropWhile jsSpace) else none
  | [] => none

/-- `LOG_REGEX` as a matcher. -/
def matchLog (line : String) : Option LogGroups :=
  match line.data.dropWhile jsSpace with
  | '(' :: cs =>
    match matchNumDotNum cs with
    | none => none
    | some (ts, cs) =>
      match cs with
      | ')' :: cs =>
        match matchSpaces1 cs with
        | none => none
        | some cs =>
          match matchClass1 isWordC cs with
          | none => none
          | some (_, cs) =>
            match matchSpaces1 cs with
            | none => none
            | some cs =>
              match matchClass1 isHexDigitC cs with
              | none => none
              | some (idc, cs) =>
                match cs with
                | '#' :: cs =>
                  let (dat, cs) := spanP isHexDigitC cs
                  if (cs.dropWhile jsSpace).isEmpty then
                    some { ts := ⟨ts⟩, id := ⟨idc⟩, rawData := ⟨dat⟩ }
                  else none
                | _ => none
      | _ => none
  | _ => none

/-- The shared tail `\s+\d+\s*([0-9A-Fa-f\s]*)$` of the TRC-family regexes:
a declared-length field, optional spaces, then a data section consisting only
of hex digits and whitespace, captured to the end of the line. -/
def matchDlcAndData (cs : List Char) : Option (List Char) :=
  match matchSpaces1 cs with
  | none => none
  | some cs =>
    match matchClass1 Char.isDigit cs with
    | none => none
    | some (_, cs) =>
      let cs := cs.dropWhile jsSpace
      if cs.all isHexSp then some cs else none

/-- `TRC_REGEX` as a matcher. -/
def matchTrc (line : String) : Option TrcGroups :=
  match matchClass1 Char.isDigit (line.data.dropWhile jsSpace) with
  | none => none
  | some (_, cs) =>
    match cs with
    | ')' :: cs =>
      match matchSpaces1 cs with
      | none => none
      | some cs =>
        match matchNumDotNum cs with
        | none => none
        | some (ts, cs) =>
          match matchSpaces1 cs with
          | none => none
          | some cs =>
            match matchDir cs with
            | none => none
            | some (dir, cs) =>
              match matchSpaces1 cs with
              | none => none
              | some cs =>
                match matchClass1 isHexOrX cs with
                | none => none
                | some (idc, cs) =>
                  match matchDlcAndData cs with
                  | none => none
                  | some dat => some { ts := ⟨ts⟩, dir := dir, id := ⟨idc⟩, rawData := ⟨dat⟩ }
    | _ => none

/-- `PCAN_V5_REGEX` as a matcher: like `TRC_REGEX` with a `[\d.]+` timestamp
and a hex-only id. -/
def matchPcanV5 (line : String) : Option TrcGroups :=
  match matchClass1 Char.isDigit (line.data.dropWhile jsSpace) with
  | none => none
  | some (_, cs) =>
    match cs with
    | ')' :: cs =>
      match matchSpaces1 cs with
      | none => none
      | some cs =>
        match matchClass1 isDigitDot cs with
        | none => none
        | some (ts, cs) =>
          match matchSpaces1 cs with
          | none => none
          | some cs =>
            match matchDir cs with
            | none => none
            | some (dir, cs) =>
              match matchSpaces1 cs with
              | none => none
              | some cs =>
                match matchClass1 isHexDigitC cs with
                | none => none
                | some (idc, cs) =>
                  match matchDlcAndData cs with
                  | none => none
                  | some dat => some { ts := ⟨ts⟩, dir := dir, id := ⟨idc⟩, rawData := ⟨dat⟩ }
    | _ => none

/-- `PCAN_VIEW_REGEX` as a matcher. -/
def matchPcanView (line : String) : Option ViewGroups :=
  match matchClass1 Char.isDigit (line.data.dropWhile jsSpace) with
  | none => none
  | some (_, cs) =>
    match matchSpaces1 cs with
    | none => none
    | some cs =>
      match matchClass1 isDigitDot cs with
      | none => none
      | some (ts, cs) =>
        match matchSpaces1 cs with
        | none => none
        | some cs =>
          match matchClass1 isWordC cs with
          | none => none
          | some (_, cs) =>
            match matchSpaces1 cs with
            | none => none
            | some cs =>
              match matchClass1 isHexOrX cs with
              | none => none
              | some (idc, cs) =>
                match matchSpaces1 cs with
                | none => none
                | some cs =>
                  match matchDir cs with
                  | none => none
                  | some (dir, cs) =>
                    match matchDlcAndData cs with
                    | none => none
                    | some dat =>
                      some { ts := ⟨ts⟩, id := ⟨idc⟩, dir := dir, rawData := ⟨dat⟩ }

/-- The id alternation `(0x[0-9A-Fa-f]+|[0-9A-Fa-f]+)` of the custom format:
a literal lowercase `0x` followed by at least one hex digit, or a bare run of
hex digits (falling back to the bare run, which then captures just `0`, when
`0x` is not followed by a hex digit). -/
def matchCustomId (cs : List Char) : Option (List Char × List Char) :=
  match cs with
  | '0' :: 'x' :: rest =>
      match spanP isHexDigitC rest with
      | ([], _) => matchClass1 isHexDigitC cs
      | (h, rest') => some ('0' :: 'x' :: h, rest')
  | _ => matchClass1 isHexDigitC cs

/-- `CUSTOM_FORMAT_REGEX` as a matcher (the header-keyword rejection of
`parseCustomFormatLine` is applied separately in the recognizer). -/
def matchCustom (line : String) : Option CustomGroups :=
  match matchClass1 Char.isDigit (line.data.dropWhile jsSpace) with
  | none => none
  | some (ts, cs) =>
    match matchSpaces1 cs with
    | none => none
    | some cs =>
      match matchCustomId cs with
      | none => none
      | some (idc, cs) =>
        match matchSpaces1 cs with
        | none => none
        | some cs =>
          match matchClass1 Char.isDigit cs with
          | none => none
          | some (dlcc, cs) =>
            match matchSpaces1 cs with
            | none => none
            | some cs =>
              if cs.all isHexSp then
                some { ts := ⟨ts⟩, id := ⟨idc⟩, dlc := ⟨dlcc⟩, rawData := ⟨cs⟩ }
              else none

/-- `rawData.match(/.{1,2}/g) || []`: successive two-character chunks. -/
def chunk2 : List Char → List String
  | [] => []
  | [a] => [⟨[a]⟩]
  | a :: b :: rest => ⟨[a, b]⟩ :: chunk2 rest

/-- `s.trim().split(/\s+/).filter(Boolean)`: whitespace-delimited tokens. -/
def splitWsAux : List Char → List Char → List String
  | [], acc => if acc.isEmpty then [] else [⟨acc.reverse⟩]
  | c :: cs, acc =>
      if jsSpace c then
        if acc.isEmpty then splitWsAux cs [] else ⟨acc.reverse⟩ :: splitWsAux cs []
      else splitWsAux cs (c :: acc)

def splitWs (s : String) : List String := splitWsAux s.data []

/-- `parseLogLine` from `canParser.ts`. -/
def parseLogLine (line : String) : Option CANMessage :=
  (matchLog line).map fun g =>
    let data := chunk2 g.rawData.data
    { timestamp := jsParseFloat g.ts
      id := "0x" ++ jsToUpper g.id
      dlc := data.length
      data := data.map jsToUpper
      isTx := false }

/-- `parseTrcLine` from `canParser.ts` (the line is trimmed before matching). -/
def parseTrcLine (line : String) : Option CANMessage :=
  (matchTrc (jsTrim line)).map fun g =>
    let data := splitWs (jsTrim g.rawData)
    { timestamp := jsParseFloat g.ts
      id := if jsStartsWith "0x" g.id then jsToUpper g.id else "0x" ++ jsToUpper g.id
      dlc := data.length
      data := data.map jsToUpper
      isTx := g.dir = "Tx" }

/-- `parsePcanViewLine` from `canParser.ts` (trims, rejects `;` comments,
then matches). -/
def parsePcanViewLine (line : String) : Option CANMessage :=
  let trimmedLine := jsTrim line
  if jsStartsWith ";" trimmedLine then none
  else
    (matchPcanView trimmedLine).map fun g =>
      let data := splitWs (jsTrim g.rawData)
      { timestamp := jsParseFloat g.ts
        id := if jsStartsWith "0x" g.id then jsToUpper g.id else "0x" ++ jsToUpper g.id
        dlc := data.length
        data := data.map jsToUpper
        isTx := g.dir = "Tx" }

/-- `parsePcanV5Line` from `canParser.ts`. -/
def parsePcanV5Line (line : String) : Option CANMessage :=
  (matchPcanV5 line).map fun g =>
    let data := splitWs (jsTrim g.rawData)
    { timestamp := jsParseFloat g.ts
      id := "0x" ++ jsToUpper g.id
      dlc := data.length
      data := data.map jsToUpper
      isTx := g.dir = "Tx" }

/-- `parseCustomFormatLine` from the custom-recognizer parser variant: rejects
header-looking lines, then takes `dlc` from the declared length column and the
data bytes from the data section. -/
def parseCustomFormatLine (line : String) : Option CANMessage :=
  if containsL "timestamp".data (jsToLower line).data ||
     containsL "can_id".data (jsToLower line).data ||
     containsL "data(hex)".data (jsToLower line).data then none
  else
    (matchCustom line).map fun g =>
      let data := splitWs (jsTrim g.rawData)
      let parsedId := if jsStartsWith "0x" (jsToLower g.id) then g.id else "0x" ++ g.id
      { timestamp := some (digitsToNat g.ts.data : ℚ)
        id := jsToUpper parsedId
        dlc := digitsToNat g.dlc.data
        data := data.map jsToUpper
        isTx := false }

/-! ## Matrix text parser (`matrixParser.ts`) -/

/-- Captures of `MESSAGE_REGEX` `^BO_\s+(\d+)\s+(\w+)\s*:\s*(\d+)\s+(.+)`. -/
structure MsgGroups where
  id : String
  name : String
  dlc : String
  rest : String
deriving DecidableEq, Repr

/-- Captures of `SIGNAL_REGEX`
`^\s*SG_\s+(\w+)\s*:\s*(\d+)\|(\d+)@(\d+)([+-])\s+\(([\d.-]+),([\d.-]+)\)(?:\s+\[([\d.-]+)\|([\d.-]+)\])?\s+"([^"]*)"`. -/
structure SigGroups where
  name : String
  startBit : String
  length : String
  byteOrder : String
  sign : Char
  scale : String
  offset : String
  range : Option (String × String)
  unit : String
deriving DecidableEq, Repr

/-- `MESSAGE_REGEX` as a matcher (applied to the trimmed line; the trailing
`(.+)` group requires at least one character after the length field). -/
def matchMessage (line : String) : Option MsgGroups :=
  match line.data with
  | 'B' :: 'O' :: '_' :: cs =>
    match matchSpaces1 cs with
    | none => none
    | some cs =>
      match matchClass1 Char.isDigit cs with
      | none => none
      | some (idc, cs) =>
        match matchSpaces1 cs with
        | none => none
        | some cs =>
          match matchClass1 isWordC cs with
          | none => none
          | some (nm, cs) =>
            match cs.dropWhile jsSpace with
            | ':' :: cs =>
              let cs := cs.dropWhile jsSpace
              match matchClass1 Char.isDigit cs with
              | none => none
              | some (dlcc, cs) =>
                match matchSpaces1 cs with
                | none => none
                | some cs =>
                  if cs.isEmpty then none
                  else some { id := ⟨idc⟩, name := ⟨nm⟩, dlc := ⟨dlcc⟩, rest := ⟨cs⟩ }
            | _ => none
  | _ => none

/-- The optional `(?:\s+\[([\d.-]+)\|([\d.-]+)\])?` range group: consumed when
the whole bracketed shape is present, skipped otherwise. -/
def matchRange (cs : List Char) : Option (String × String) × List Char :=
  match matchSpaces1 cs with
  | none => (none, cs)
  | some cs1 =>
    match cs1 with
    | '[' :: cs2 =>
      match matchClass1 isNumC cs2 with
      | none => (none, cs)
      | some (mn, cs3) =>
        match cs3 with
        | '|' :: cs4 =>
          match matchClass1 isNumC cs4 with
          | none => (none, cs)
          | some (mx, cs5) =>
            match cs5 with
            | ']' :: cs6 => (some (⟨mn⟩, ⟨mx⟩), cs6)
            | _ => (none, cs)
        | _ => (none, cs)
    | _ => (none, cs)

/-- `SIGNAL_REGEX` as a matcher (not end-anchored: trailing text is allowed
after the quoted unit). -/
def matchSignal (line : String) : Option SigGroups :=
  match line.data.dropWhile jsSpace with
  | 'S' :: 'G' :: '_' :: cs =>
    match matchSpaces1 cs with
    | none => none
    | some cs =>
      match matchClass1 isWordC cs with
      | none => none
      | some (nm, cs) =>
        match cs.dropWhile jsSpace with
        | ':' :: cs =>
          let cs := cs.dropWhile jsSpace
          match matchClass1 Char.isDigit cs with
          | none => none
          | some (sb, cs) =>
            match cs with
            | '|' :: cs =>
              match matchClass1 Char.isDigit cs with
              | none => none
              | some (ln, cs) =>
                match cs with
                | '@' :: cs =>
                  match matchClass1 Char.isDigit cs with
                  | none => none
                  | some (bo, cs) =>
                    match cs with
                    | sg :: cs =>
                      if sg = '+' ∨ sg = '-' then
                        match matchSpaces1 cs with
                        | none => none
                        | some cs =>
                          match cs with
                          | '(' :: cs =>
                            match matchClass1 isNumC cs with
                            | none => none
                            | some (sc, cs) =>
                              match cs with
                              | ',' :: cs =>
                                match matchClass1 isNumC cs with
                                | none => none
                                | some (off, cs) =>
                                  match cs with
                                  | ')' :: cs =>
                                    let (rng, cs) := matchRange cs
                                    match matchSpaces1 cs with
                                    | none => none
                                    | some cs =>
                                      match cs with
                                      | '"' :: cs =>
                                        let (un, cs) := spanP (fun c => c ≠ '"') cs
                                        match cs with
                                        | '"' :: _ =>
                                          some { name := ⟨nm⟩, startBit := ⟨sb⟩,
                                                 length := ⟨ln⟩, byteOrder := ⟨bo⟩,
                                                 sign := sg, scale := ⟨sc⟩,
                                                 offset := ⟨off⟩, range := rng,
                                                 unit := ⟨un⟩ }
                                        | _ => none
                                      | _ => none
                                  | _ => none
                              | _ => none
                          | _ => none
                      else none
                    | [] => none
                | _ => none
            | _ => none
        | _ => none
  | _ => none

/-- Build the `SignalDefinition` from the matched groups, as in the
`signalMatch` branch of `parseDbcFile` (`parseFloat(min || '0')` /
`parseFloat(max || '0')` when the range is absent; a `parseFloat` that would
be `NaN` is represented as 0, `ℚ` having no `NaN`). -/
def mkSignal (g : SigGroups) : SignalDefinition :=
  { name := g.name
    startBit := digitsToNat g.startBit.data
    length := digitsToNat g.length.data
    isLittleEndian := digitsToNat g.byteOrder.data = 1
    isSigned := g.sign = '-'
    scale := (jsParseFloat g.scale).getD 0
    offset := (jsParseFloat g.offset).getD 0
    min := (jsParseFloat ((g.range.map Prod.fst).getD "0")).getD 0
    max := (jsParseFloat ((g.range.map Prod.snd).getD "0")).getD 0
    unit := g.unit }

/-- One line of `parseDbcFile`'s loop: the state is the matrix built so far and
the identifier of the current message (the JS mutable `currentMessage` object
is exactly the matrix entry stored at that identifier). -/
def dbcStep (st : CanMatrix × Option String) (line : String) : CanMatrix × Option String :=
  let trimmedLine := jsTrim line
  match matchMessage trimmedLine with
  | some g =>
      let msg : MessageDefinition := { name := g.name, dlc := digitsToNat g.dlc.data, signals := [] }
      (alInsert st.1 g.id msg, some g.id)
  | none =>
      match matchSignal trimmedLine, st.2 with
      | some g, some cid =>
          (alUpdate st.1 cid
            (fun m => { m with signals := alInsert m.signals g.name (mkSignal g) }), st.2)
      | _, _ => st

/-- `parseDbcFile` over an already-split list of lines. -/
def parseDbcLines (lines : List String) : CanMatrix :=
  (lines.foldl dbcStep ([], none)).1

/-- `parseDbcFile` from `matrixParser.ts` (`content.split('\n')`). -/
def parseDbcFile (content : String) : CanMatrix :=
  parseDbcLines (content.splitOn "\n")

/-- Whether a line is a message-definition line, and for which identifier
(used to state which lines can replace or retarget a matrix entry). -/
def msgLineId (l : String) : Option String :=
  (matchMessage (jsTrim l)).map (fun g => g.id)

/-- The signal mapping accumulated onto the current message by a run of
catalog lines, starting from `s0`: signal lines attach until the next
message-definition line, everything else is skipped. -/
def attachSigs (s0 : List (String × SignalDefinition)) : List String → List (String × SignalDefinition)
  | [] => s0
  | l :: rest =>
      match matchMessage (jsTrim l) with
      | some _ => s0
      | none =>
          match matchSignal (jsTrim l) with
          | some g => attachSigs (alInsert s0 g.name (mkSignal g)) rest
          | none => attachSigs s0 rest

/-! ## Helper lemmas -/

lemma jsAnd_jsShr_zero (k : Int) : jsAnd (jsShr 0 k) 1 = 0 := by
  simp [jsAnd, jsShr, toInt32, toUint32]

lemma getD_replicate_zero (k j : Nat) : (List.replicate k (0 : Int)).getD j 0 = 0 := by
  induction k generalizing j with
  | zero => simp [List.getD]
  | succ k ih =>
    cases j with
    | zero => simp [List.replicate, List.getD]
    | succ j => exact ih j

lemma getD_append_lt (l l' : List Int) (j : Nat) (h : j < l.length) :
    (l ++ l').getD j 0 = l.getD j 0 := by
  induction l generalizing j with
  | nil => simp at h
  | cons a t ih =>
    cases j with
    | zero => simp [List.getD]
    | succ j =>
      simp only [List.cons_append, List.getD_cons_succ]
      exact ih j (by simpa using h)

lemma getD_append_zeros (l : List Int) (k j : Nat) (h : l.length ≤ j) :
    (l ++ List.replicate k 0).getD j 0 = 0 := by
  induction l generalizing j with
  | nil => exact getD_replicate_zero k j
  | cons a t ih =>
    cases j with
    | zero => simp at h
    | succ j =>
      simp only [List.cons_append, List.getD_cons_succ]
      exact ih j (by simpa using h)

lemma leScan_append (data : List Int) (kz : Nat) (s : SignalDefinition) :
    ∀ fuel i rv, leScan (data ++ List.replicate kz 0) s i rv fuel = leScan data s i rv fuel := by
  intro fuel
  induction fuel with
  | zero => intro i rv; rfl
  | succ fuel ih =>
    intro i rv
    simp only [leScan, List.length_append, List.length_replicate]
    by_cases h1 : data.length ≤ (s.startBit + i) / 8
    · by_cases h2 : data.length + kz ≤ (s.startBit + i) / 8
      · simp only [if_pos h1, if_pos h2]
        exact ih (i + 1) rv
      · simp only [if_pos h1, if_neg h2]
        rw [getD_append_zeros data kz _ h1, jsAnd_jsShr_zero]
        simp only [ne_eq, not_true_eq_false, if_neg, if_false]
        exact ih (i + 1) rv
    · have h2 : ¬ data.length + kz ≤ (s.startBit + i) / 8 := by omega
      simp only [if_neg h1, if_neg h2]
      rw [getD_append_lt data _ _ (by omega)]
      exact ih (i + 1) _

lemma beScan_zeros (data : List Int) (kz : Nat) (s : SignalDefinition) :
    ∀ fuel i bc rv, data.length ≤ i / 8 →
      beScan (data ++ List.replicate kz 0) s i bc rv fuel = rv := by
  intro fuel
  induction fuel with
  | zero => intro i bc rv _; rfl
  | succ fuel ih =>
    intro i bc rv h
    simp only [beScan, List.length_append, List.length_replicate]
    by_cases h2 : data.length + kz ≤ i / 8
    · simp only [if_pos h2]
    · simp only [if_neg h2]
      rw [getD_append_zeros data kz _ h, jsAnd_jsShr_zero]
      have hmono : data.length ≤ (i + 1) / 8 :=
        le_trans h (Nat.div_le_div_right (Nat.le_succ i))
      by_cases h3 : s.startBit ≤ i ∧ i < s.startBit + s.length
      · simp only [if_pos h3, ne_eq, not_true_eq_false, if_neg, if_false]
        exact ih (i + 1) (bc + 1) rv hmono
      · simp only [if_neg h3]
        exact ih (i + 1) bc rv hmono

lemma beScan_append (data : List Int) (kz : Nat) (s : SignalDefinition) :
    ∀ fuel i bc rv,
      beScan (data ++ List.replicate kz 0) s i bc rv fuel = beScan data s i bc rv fuel := by
  intro fuel
  induction fuel with
  | zero => intro i bc rv; rfl
  | succ fuel ih =>
    intro i bc rv
    by_cases h1 : data.length ≤ i / 8
    · rw [beScan_zeros data kz s (fuel + 1) i bc rv h1]
      simp only [beScan, if_pos h1]
    · simp only [beScan, List.length_append, List.length_replicate]
      have h2 : ¬ data.length + kz ≤ i / 8 := by omega
      simp only [if_neg h1, if_neg h2]
      rw [getD_append_lt data _ _ (by omega)]
      by_cases h3 : s.startBit ≤ i ∧ i < s.startBit + s.length
      · simp only [if_pos h3]
        exact ih (i + 1) (bc + 1) _
      · simp only [if_neg h3]
        exact ih (i + 1) bc rv

lemma extractRawValue_append (data : List Int) (kz : Nat) (s : SignalDefinition) :
    extractRawValue (data ++ List.replicate kz 0) s = extractRawValue data s := by
  unfold extractRawValue
  rw [leScan_append, beScan_append]

/-! ## Claims about the signal-extraction engine -/

/-- C2: decoding payload `[0xFF]` against
`{startBit: 0, length: 8, littleEndian: false, signed: true, scale: 1, offset: -40}`
extracts the two's-complement raw value `-1` and the physical value `-41`. -/
theorem c2_big_endian_signed_scenario :
    extractRawValue [255]
      { name := "s", startBit := 0, length := 8, isLittleEndian := false,
        isSigned := true, scale := 1, offset := -40, min := 0, max := 0, unit := "" } = -1 ∧
    extractSignalValue [255]
      { name := "s", startBit := 0, length := 8, isLittleEndian := false,
        isSigned := true, scale := 1, offset := -40, min := 0, max := 0, unit := "" } = -41 := by
  have h : extractRawValue [255]
      { name := "s", startBit := 0, length := 8, isLittleEndian := false,
        isSigned := true, scale := 1, offset := -40, min := 0, max := 0, unit := "" } = -1 := by
    decide
  refine ⟨h, ?_⟩
  unfold extractSignalValue
  rw [h]
  norm_num

/-- C3: decoding payload `[0x01, 0x00]` against
`{startBit: 0, length: 9, littleEndian: true, signed: false, scale: 1, offset: 0}`
extracts raw value `1` and physical value `1` (a cross-byte little-endian field). -/
theorem c3_little_endian_cross_byte_scenario :
    extractRawValue [1, 0]
      { name := "s", startBit := 0, length := 9, isLittleEndian := true,
        isSigned := false, scale := 1, offset := 0, min := 0, max := 0, unit := "" } = 1 ∧
    extractSignalValue [1, 0]
      { name := "s", startBit := 0, length := 9, isLittleEndian := true,
        isSigned := false, scale := 1, offset := 0, min := 0, max := 0, unit := "" } = 1 := by
  have h : extractRawValue [1, 0]
      { name := "s", startBit := 0, length := 9, isLittleEndian := true,
        isSigned := false, scale := 1, offset := 0, min := 0, max := 0, unit := "" } = 1 := by
    decide
  refine ⟨h, ?_⟩
  unfold extractSignalValue
  rw [h]
  norm_num

/-- C5: signal extraction is total by construction, and bits whose byte index
lies at or beyond the end of the payload contribute zero: extending any payload
with any number of zero bytes never changes the extracted value, for any signal
definition (both endianness conventions, the big-endian scan breaking at the
payload end even mid-signal). -/
theorem c5_out_of_range_bits_are_zero (data : List Int) (kz : Nat) (s : SignalDefinition) :
    extractSignalValue (data ++ List.replicate kz 0) s = extractSignalValue data s := by
  unfold extractSignalValue
  rw [extractRawValue_append]

/-- C6: at bit-length 31 the sign-extension step is wrong. For the signed
little-endian signal `{startBit: 0, length: 31, scale: 1, offset: 0}` and
payload `[0x00, 0x00, 0x00, 0x40]` the pre-adjustment raw value is `2^30`,
whose most significant raw bit (bit 30) is set; a two's-complement decode
(`raw - 2^length`) would give `2^30 - 2^31 = -1073741824`, but the code's
`rawValue -= 1 << signal.length` evaluates `1 << 31` to `-2^31` in 32-bit
JavaScript arithmetic, so the engine adds `2^31` and produces `3221225472`. -/
theorem c6_sign_extension_32bit_overflow :
    extractRawValue [0, 0, 0, 64]
      { name := "s", startBit := 0, length := 31, isLittleEndian := true,
        isSigned := true, scale := 1, offset := 0, min := 0, max := 0, unit := "" }
      = 3221225472 ∧
    (3221225472 : Int) ≠ 2 ^ 30 - 2 ^ 31 := by
  exact ⟨by decide, by decide⟩

/-! ## Claims about `decodeMessages` -/

lemma getD_map_lt {α β : Type} [Inhabited α] [Inhabited β] (f : α → β) (l : List α) (i : Nat)
    (h : i < l.length) : (l.map f).getD i default = f (l.getD i default) := by
  induction l generalizing i with
  | nil => simp at h
  | cons a t ih =>
    cases i with
    | zero => simp [List.getD]
    | succ i => simpa [List.getD] using ih i (by simpa using h)

lemma decodeOne_miss (matrix : CanMatrix) (m : CANMessage)
    (h : alLookup matrix (canonicalKey m.id) = none) : decodeOne matrix m = m := by
  unfold decodeOne
  rw [h]

lemma decodeOne_hit (matrix : CanMatrix) (m : CANMessage) (d : MessageDefinition)
    (h : alLookup matrix (canonicalKey m.id) = some d) :
    decodeOne matrix m =
      { m with decoded := some (d.signals.foldl
          (fun acc p => alInsert acc p.2.name
            (toPrecision10 (extractSignalValue
              (m.data.map fun hex => jsToUint8 (jsParseInt16 hex)) p.2))) []) } := by
  unfold decodeOne
  rw [h]

/-- C4: `decodeMessages` is total and returns exactly one output frame per
input frame in order; a frame whose canonical identifier key has a
`MessageDefinition` comes back with only `decoded` added (timestamp, id, dlc,
data and direction unchanged), and a frame with no matching definition passes
through entirely unchanged, with `decoded` still absent rather than an empty
mapping. -/
theorem c4_decode_total_shape (messages : List CANMessage) (matrix : CanMatrix)
    (i : Nat) (h : i < messages.length) : decodeShapeSpec messages matrix i := by
  unfold decodeShapeSpec
  have hg : (decodeMessages messages matrix).getD i default
      = decodeOne matrix (messages.getD i default) := getD_map_lt _ _ i h
  refine ⟨by simp [decodeMessages], ?_⟩
  rw [hg]
  cases hl : alLookup matrix (canonicalKey (messages.getD i default).id) with
  | none =>
    rw [decodeOne_miss _ _ hl]
    simp
  | some d =>
    rw [decodeOne_hit _ _ _ hl]
    simp

/-- Concrete instance of the C4 contract: a one-frame list decoded against the
empty matrix. -/
theorem c4_decode_total_shape_witness :
    0 < ([{ timestamp := some 1, id := "0x100", dlc := 1, data := ["FF"],
            isTx := false, decoded := none }] : List CANMessage).length ∧
    decodeShapeSpec
      [{ timestamp := some 1, id := "0x100", dlc := 1, data := ["FF"],
         isTx := false, decoded := none }] ([] : CanMatrix) 0 :=
  ⟨by decide,
   c4_decode_total_shape
     [{ timestamp := some 1, id := "0x100", dlc := 1, data := ["FF"],
        isTx := false, decoded := none }] ([] : CanMatrix) 0 (by decide)⟩

/-- C8: `decodeMessages` is idempotent on the `decoded` field — running the
decoder again, with the same matrix, over its own output reproduces identical
`decoded` mappings. -/
theorem c8_decode_idempotent (frames : List CANMessage) (matrix : CanMatrix) :
    (decodeMessages (decodeMessages frames matrix) matrix).map (fun m => m.decoded)
      = (decodeMessages frames matrix).map (fun m => m.decoded) := by
  unfold decodeMessages
  simp only [List.map_map]
  apply List.map_congr_left
  intro m _
  show (decodeOne matrix (decodeOne matrix m)).decoded = (decodeOne matrix m).decoded
  cases hl : alLookup matrix (canonicalKey m.id) with
  | none =>
    rw [decodeOne_miss _ _ hl, decodeOne_miss _ _ hl]
  | some d =>
    rw [decodeOne_hit _ _ _ hl]
    have hl2 : alLookup matrix (canonicalKey ({ m with decoded := some (d.signals.foldl
          (fun acc p => alInsert acc p.2.name
            (toPrecision10 (extractSignalValue
              (m.data.map fun hex => jsToUint8 (jsParseInt16 hex)) p.2))) []) } : CANMessage).id)
        = some d := hl
    rw [decodeOne_hit _ _ _ hl2]

/-! ## Claims about the frame recognizers -/

/-- C1 (amended): the four positional recognizers — candump, TRC, PCAN-View
and PCAN v5 — always set `dlc` to the number of data byte tokens they
tokenized, which is also the length of the `data` array; the custom
fixed-column recognizer is the exception settled by the counterexample. -/
theorem c1_dlc_is_token_count (line : String) (m : CANMessage)
    (h : parseLogLine line = some m ∨ parseTrcLine line = some m ∨
         parsePcanViewLine line = some m ∨ parsePcanV5Line line = some m) :
    m.dlc = m.data.length := by
  rcases h with h | h | h | h
  · unfold parseLogLine at h
    cases hm : matchLog line with
    | none => rw [hm] at h; simp at h
    | some g =>
      rw [hm] at h
      simp only [Option.map_some', Option.some.injEq] at h
      subst h
      simp
  · unfold parseTrcLine at h
    cases hm : matchTrc (jsTrim line) with
    | none => rw [hm] at h; simp at h
    | some g =>
      rw [hm] at h
      simp only [Option.map_some', Option.some.injEq] at h
      subst h
      simp
  · unfold parsePcanViewLine at h
    by_cases hc : jsStartsWith ";" (jsTrim line) = true
    · simp only [hc, if_true] at h
      simp at h
    · rw [if_neg (by simpa using hc)] at h
      cases hm : matchPcanView (jsTrim line) with
      | none => rw [hm] at h; simp at h
      | some g =>
        rw [hm] at h
        simp only [Option.map_some', Option.some.injEq] at h
        subst h
        simp
  · unfold parsePcanV5Line at h
    cases hm : matchPcanV5 line with
    | none => rw [hm] at h; simp at h
    | some g =>
      rw [hm] at h
      simp only [Option.map_some', Option.some.injEq] at h
      subst h
      simp

/-- C1 counterexample: the custom fixed-column recognizer accepts
`"1 0x123 8 11 22"` and takes `dlc = 8` from the line's declared length field,
while only two data byte tokens were tokenized — so `dlc` is a declared length,
not the token count, and `data` does not have length `dlc`. -/
theorem c1_custom_dlc_from_declared_field :
    (parseCustomFormatLine "1 0x123 8 11 22").map (fun m => (m.dlc, m.data.length))
      = some (8, 2) ∧ (8 : Nat) ≠ 2 := by
  exact ⟨by decide, by decide⟩

/-- Concrete instance of the C1 contract on a candump line. -/
theorem c1_dlc_is_token_count_witness :
    parseLogLine "(12) can0 1a2#1122" =
      some { timestamp := some 12, id := "0x1A2", dlc := 2,
             data := ["11", "22"], isTx := false, decoded := none } ∧
    ({ timestamp := some 12, id := "0x1A2", dlc := 2,
       data := ["11", "22"], isTx := false, decoded := none } : CANMessage).dlc
      = ({ timestamp := some 12, id := "0x1A2", dlc := 2,
           data := ["11", "22"], isTx := false, decoded := none } : CANMessage).data.length :=
  ⟨by decide,
   c1_dlc_is_token_count "(12) can0 1a2#1122"
     { timestamp := some 12, id := "0x1A2", dlc := 2,
       data := ["11", "22"], isTx := false, decoded := none } (Or.inl (by decide))⟩

/-! ## Claims about identifier normalization (C7) -/

lemma toNat_ofNat_valid (n : Nat) (h : n.isValidChar) : (Char.ofNat n).toNat = n := by
  unfold Char.ofNat
  rw [dif_pos h]
  rfl

lemma lowChar_ne_x_of_hex (c : Char) (h : isHexDigitC c = true) : lowChar c ≠ 'x' := by
  intro hx
  have hh : (48 ≤ c.toNat ∧ c.toNat ≤ 57) ∨ (97 ≤ c.toNat ∧ c.toNat ≤ 102) ∨
      (65 ≤ c.toNat ∧ c.toNat ≤ 70) := by
    unfold isHexDigitC at h
    simp only [Bool.or_eq_true, Bool.and_eq_true, decide_eq_true_eq] at h
    rcases h with (⟨h1, h2⟩ | ⟨h1, h2⟩) | ⟨h1, h2⟩
    · exact Or.inl ⟨h1, h2⟩
    · exact Or.inr (Or.inl ⟨h1, h2⟩)
    · exact Or.inr (Or.inr ⟨h1, h2⟩)
  unfold lowChar at hx
  split_ifs at hx with hAB
  · have h120 := congrArg Char.toNat hx
    rw [toNat_ofNat_valid _ (Or.inl (by omega))] at h120
    have : ('x').toNat = 120 := rfl
    omega
  · have h120 := congrArg Char.toNat hx
    have : ('x').toNat = 120 := rfl
    omega

lemma startsWith0x (s : String) (h : jsStartsWith "0x" s = true) :
    ∃ t, s.data = '0' :: 'x' :: t := by
  unfold jsStartsWith at h
  rw [List.isPrefixOf_iff_prefix] at h
  obtain ⟨t, ht⟩ := h
  exact ⟨t, by simpa using ht.symm⟩

lemma up0 : upChar '0' = '0' := by decide

lemma upx : upChar 'x' = 'X' := by decide

lemma take2_prefix_0x (s : String) : ("0x" ++ jsToUpper s).data.take 2 = ['0', 'x'] := by
  rw [String.data_append]
  rfl

lemma take2_upper_of_0x (s : String) (h : jsStartsWith "0x" s = true) :
    (jsToUpper s).data.take 2 = ['0', 'X'] := by
  obtain ⟨t, ht⟩ := startsWith0x s h
  show (s.data.map upChar).take 2 = ['0', 'X']
  rw [ht]
  simp [up0, upx]

lemma take2_upper_append0x (s : String) :
    (jsToUpper ("0x" ++ s)).data.take 2 = ['0', 'X'] := by
  show (("0x" ++ s).data.map upChar).take 2 = ['0', 'X']
  rw [String.data_append]
  show (('0' :: 'x' :: s.data).map upChar).take 2 = ['0', 'X']
  simp [up0, upx]

lemma matchClass1_shape {p : Char → Bool} {cs g rest : List Char}
    (h : matchClass1 p cs = some (g, rest)) : g ≠ [] ∧ ∀ c ∈ g, p c = true := by
  simp only [matchClass1, spanP] at h
  split at h
  · exact absurd h (by simp)
  · rename_i hne
    have hg : cs.takeWhile p = g := congrArg Prod.fst (Option.some.inj h)
    subst hg
    refine ⟨by simpa using hne, ?_⟩
    intro c hc
    exact List.mem_takeWhile_imp hc

lemma matchCustomId_shape {cs : List Char} {idc rest : List Char}
    (h : matchCustomId cs = some (idc, rest)) :
    (∃ t, idc = '0' :: 'x' :: t) ∨ (idc ≠ [] ∧ ∀ c ∈ idc, isHexDigitC c = true) := by
  unfold matchCustomId at h
  split at h
  · split at h
    · exact Or.inr (matchClass1_shape h)
    · left
      have hfst : '0' :: 'x' :: _ = idc := congrArg Prod.fst (Option.some.inj h)
      exact ⟨_, hfst.symm⟩
  · exact Or.inr (matchClass1_shape h)

lemma matchCustom_id_shape (line : String) (g : CustomGroups)
    (h : matchCustom line = some g) :
    (∃ t, g.id.data = '0' :: 'x' :: t) ∨
    (g.id.data ≠ [] ∧ ∀ c ∈ g.id.data, isHexDigitC c = true) := by
  unfold matchCustom at h
  split at h
  · exact absurd h (by simp)
  · rename_i ts cs hts
    split at h
    · exact absurd h (by simp)
    · rename_i cs2 hsp
      split at h
      · exact absurd h (by simp)
      · rename_i idc cs3 hid
        split at h
        · exact absurd h (by simp)
        · rename_i cs4 hsp2
          split at h
          · exact absurd h (by simp)
          · rename_i dlcc cs5 hdlc
            split at h
            · exact absurd h (by simp)
            · rename_i cs6 hsp3
              split at h
              · have hg := Option.some.inj h
                subst hg
                exact matchCustomId_shape hid
              · exact absurd h (by simp)

/-- C7 (amended): every produced frame id is the identifier's hex text
uppercased behind a two-character radix prefix, but the prefix is not one fixed
marker. Precisely, in terms of the identifier group `g.id` each recognizer
matched: the candump and PCAN v5 recognizers always produce
`"0x" ++ toUpperCase(g.id)` (prefix `0x`); the TRC and PCAN-View recognizers
produce `"0x" ++ toUpperCase(g.id)` (prefix `0x`) exactly when the source id
did not carry a `0x` prefix, and otherwise uppercase the identifier wholesale,
`toUpperCase(g.id)`, yielding prefix `0X`; and the custom recognizer
uppercases the (possibly freshly prefixed) identifier wholesale, always
yielding prefix `0X`. -/
theorem c7_id_prefix_by_recognizer (line : String) (m : CANMessage) :
    (parseLogLine line = some m →
      ∃ g, matchLog line = some g ∧ m.id = "0x" ++ jsToUpper g.id ∧
        m.id.data.take 2 = ['0', 'x']) ∧
    (parsePcanV5Line line = some m →
      ∃ g, matchPcanV5 line = some g ∧ m.id = "0x" ++ jsToUpper g.id ∧
        m.id.data.take 2 = ['0', 'x']) ∧
    (parseTrcLine line = some m →
      ∃ g, matchTrc (jsTrim line) = some g ∧
        (jsStartsWith "0x" g.id = true →
          m.id = jsToUpper g.id ∧ m.id.data.take 2 = ['0', 'X']) ∧
        (jsStartsWith "0x" g.id = false →
          m.id = "0x" ++ jsToUpper g.id ∧ m.id.data.take 2 = ['0', 'x'])) ∧
    (parsePcanViewLine line = some m →
      ∃ g, matchPcanView (jsTrim line) = some g ∧
        (jsStartsWith "0x" g.id = true →
          m.id = jsToUpper g.id ∧ m.id.data.take 2 = ['0', 'X']) ∧
        (jsStartsWith "0x" g.id = false →
          m.id = "0x" ++ jsToUpper g.id ∧ m.id.data.take 2 = ['0', 'x'])) ∧
    (parseCustomFormatLine line = some m →
      ∃ g, matchCustom line = some g ∧
        m.id = jsToUpper (if jsStartsWith "0x" (jsToLower g.id) then g.id
                          else "0x" ++ g.id) ∧
        m.id.data.take 2 = ['0', 'X']) := by
  refine ⟨?_, ?_, ?_, ?_, ?_⟩
  · intro h
    unfold parseLogLine at h
    cases hm : matchLog line with
    | none => rw [hm] at h; simp at h
    | some g =>
      rw [hm] at h
      simp only [Option.map_some', Option.some.injEq] at h
      subst h
      exact ⟨g, rfl, rfl, take2_prefix_0x g.id⟩
  · intro h
    unfold parsePcanV5Line at h
    cases hm : matchPcanV5 line with
    | none => rw [hm] at h; simp at h
    | some g =>
      rw [hm] at h
      simp only [Option.map_some', Option.some.injEq] at h
      subst h
      exact ⟨g, rfl, rfl, take2_prefix_0x g.id⟩
  · intro h
    unfold parseTrcLine at h
    cases hm : matchTrc (jsTrim line) with
    | none => rw [hm] at h; simp at h
    | some g =>
      rw [hm] at h
      simp only [Option.map_some', Option.some.injEq] at h
      subst h
      refine ⟨g, rfl, ?_, ?_⟩
      · intro hsw
        constructor
        · show (if jsStartsWith "0x" g.id then jsToUpper g.id
                else "0x" ++ jsToUpper g.id) = jsToUpper g.id
          rw [if_pos hsw]
        · show (if jsStartsWith "0x" g.id then jsToUpper g.id
                else "0x" ++ jsToUpper g.id).data.take 2 = ['0', 'X']
          rw [if_pos hsw]
          exact take2_upper_of_0x g.id hsw
      · intro hsw
        constructor
        · show (if jsStartsWith "0x" g.id then jsToUpper g.id
                else "0x" ++ jsToUpper g.id) = "0x" ++ jsToUpper g.id
          rw [if_neg (by simp [hsw])]
        · show (if jsStartsWith "0x" g.id then jsToUpper g.id
                else "0x" ++ jsToUpper g.id).data.take 2 = ['0', 'x']
          rw [if_neg (by simp [hsw])]
          exact take2_prefix_0x g.id
  · intro h
    unfold parsePcanViewLine at h
    by_cases hc : jsStartsWith ";" (jsTrim line) = true
    · simp only [hc, if_true] at h
      simp at h
    · rw [if_neg (by simpa using hc)] at h
      cases hm : matchPcanView (jsTrim line) with
      | none => rw [hm] at h; simp at h
      | some g =>
        rw [hm] at h
        simp only [Option.map_some', Option.some.injEq] at h
        subst h
        refine ⟨g, rfl, ?_, ?_⟩
        · intro hsw
          constructor
          · show (if jsStartsWith "0x" g.id then jsToUpper g.id
                  else "0x" ++ jsToUpper g.id) = jsToUpper g.id
            rw [if_pos hsw]
          · show (if jsStartsWith "0x" g.id then jsToUpper g.id
                  else "0x" ++ jsToUpper g.id).data.take 2 = ['0', 'X']
            rw [if_pos hsw]
            exact take2_upper_of_0x g.id hsw
        · intro hsw
          constructor
          · show (if jsStartsWith "0x" g.id then jsToUpper g.id
                  else "0x" ++ jsToUpper g.id) = "0x" ++ jsToUpper g.id
            rw [if_neg (by simp [hsw])]
          · show (if jsStartsWith "0x" g.id then jsToUpper g.id
                  else "0x" ++ jsToUpper g.id).data.take 2 = ['0', 'x']
            rw [if_neg (by simp [hsw])]
            exact take2_prefix_0x g.id
  · intro h
    unfold parseCustomFormatLine at h
    split at h
    · simp at h
    · cases hm : matchCustom line with
      | none => rw [hm] at h; simp at h
      | some g =>
        rw [hm] at h
        simp only [Option.map_some', Option.some.injEq] at h
        subst h
        refine ⟨g, rfl, rfl, ?_⟩
        show (jsToUpper (if jsStartsWith "0x" (jsToLower g.id) then g.id
              else "0x" ++ g.id)).data.take 2 = ['0', 'X']
        rcases matchCustom_id_shape line g hm with ⟨t, ht⟩ | ⟨hne, hall⟩
        · by_cases hb : jsStartsWith "0x" (jsToLower g.id)
          · rw [if_pos hb]
            show (g.id.data.map upChar).take 2 = ['0', 'X']
            rw [ht]
            simp [up0, upx]
          · rw [if_neg hb]
            exact take2_upper_append0x g.id
        · by_cases hb : jsStartsWith "0x" (jsToLower g.id)
          · exfalso
            obtain ⟨t, htl⟩ := startsWith0x _ hb
            have hmap : g.id.data.map lowChar = '0' :: 'x' :: t := htl
            cases hdat : g.id.data with
            | nil => rw [hdat] at hmap; simp at hmap
            | cons c0 rest =>
              rw [hdat] at hmap
              simp only [List.map_cons, List.cons.injEq] at hmap
              obtain ⟨h0, hrest⟩ := hmap
              cases rest with
              | nil => simp at hrest
              | cons c1 rest1 =>
                simp only [List.map_cons, List.cons.injEq] at hrest
                obtain ⟨h1, _⟩ := hrest
                exact lowChar_ne_x_of_hex c1 (hall c1 (by rw [hdat]; simp)) h1
          · rw [if_neg hb]
            exact take2_upper_append0x g.id

/-- C7 counterexample: the same identifier `1A2` comes back as `"0X1A2"` from
the TRC recognizer when the source carried a `0x` prefix, but as `"0x1A2"` from
the candump recognizer — the two-character prefix is not the same fixed marker
across recognizers and source spellings. -/
theorem c7_prefix_not_fixed :
    (parseTrcLine "1) 12 Rx 0x1a2 0").map (fun m => m.id) = some "0X1A2" ∧
    (parseLogLine "(12) can0 1a2#").map (fun m => m.id) = some "0x1A2" ∧
    "0X1A2".data.take 2 ≠ "0x1A2".data.take 2 := by
  exact ⟨by decide, by decide, by decide⟩

/-- Concrete instance of the C7 contract: a TRC line whose source identifier
`1a2` carries no radix prefix comes back as `"0x1A2"` — the prefix `0x` is
prepended to the uppercased identifier. -/
theorem c7_id_prefix_by_recognizer_witness :
    parseTrcLine "1) 12 Rx 1a2 0" =
      some { timestamp := some 12, id := "0x1A2", dlc := 0, data := [],
             isTx := false, decoded := none } ∧
    (∃ g, matchTrc (jsTrim "1) 12 Rx 1a2 0") = some g ∧
      (jsStartsWith "0x" g.id = true →
        ({ timestamp := some 12, id := "0x1A2", dlc := 0, data := [],
           isTx := false, decoded := none } : CANMessage).id = jsToUpper g.id ∧
        ({ timestamp := some 12, id := "0x1A2", dlc := 0, data := [],
           isTx := false, decoded := none } : CANMessage).id.data.take 2 = ['0', 'X']) ∧
      (jsStartsWith "0x" g.id = false →
        ({ timestamp := some 12, id := "0x1A2", dlc := 0, data := [],
           isTx := false, decoded := none } : CANMessage).id = "0x" ++ jsToUpper g.id ∧
        ({ timestamp := some 12, id := "0x1A2", dlc := 0, data := [],
           isTx := false, decoded := none } : CANMessage).id.data.take 2 = ['0', 'x'])) ∧
    jsStartsWith "0x" "1a2" = false ∧
    ("0x1A2" : String).data.take 2 = ['0', 'x'] :=
  ⟨by decide,
   (c7_id_prefix_by_recognizer "1) 12 Rx 1a2 0"
      { timestamp := some 12, id := "0x1A2", dlc := 0, data := [],
        isTx := false, decoded := none }).2.2.1 (by decide),
   by decide, by decide⟩

/-! ## Claims about the matrix text parser -/

/-- C9: a catalog signal line whose optional bracketed `[min|max]` range is
absent is still accepted by the signal matcher, and the `SignalDefinition`
built from it has `min = 0` and `max = 0` exactly. -/
theorem c9_absent_range_defaults_to_zero (line : String) (g : SigGroups)
    (h : matchSignal line = some g) (hr : g.range = none) :
    (matchSignal line).isSome ∧ (mkSignal g).min = 0 ∧ (mkSignal g).max = 0 := by
  have h0 : jsParseFloat "0" = some 0 := by decide
  refine ⟨by simp [h], ?_, ?_⟩ <;>
  · unfold mkSignal
    rw [hr]
    simp [h0]

/-- Concrete instance of the C9 contract on a rangeless signal line. -/
theorem c9_absent_range_defaults_to_zero_witness :
    matchSignal "SG_ Speed : 0|16@1+ (0.1,0) \"km/h\""
      = some ({ name := "Speed", startBit := "0", length := "16", byteOrder := "1",
                sign := '+', scale := "0.1", offset := "0", range := none,
                unit := "km/h" } : SigGroups) ∧
    ((matchSignal "SG_ Speed : 0|16@1+ (0.1,0) \"km/h\"").isSome ∧
     (mkSignal { name := "Speed", startBit := "0", length := "16", byteOrder := "1",
                 sign := '+', scale := "0.1", offset := "0", range := none,
                 unit := "km/h" }).min = 0 ∧
     (mkSignal { name := "Speed", startBit := "0", length := "16", byteOrder := "1",
                 sign := '+', scale := "0.1", offset := "0", range := none,
                 unit := "km/h" }).max = 0) :=
  ⟨by decide,
   c9_absent_range_defaults_to_zero "SG_ Speed : 0|16@1+ (0.1,0) \"km/h\""
     { name := "Speed", startBit := "0", length := "16", byteOrder := "1",
       sign := '+', scale := "0.1", offset := "0", range := none, unit := "km/h" }
     (by decide) (by decide)⟩

lemma alLookup_alInsert_self {β : Type} (m : List (String × β)) (k : String) (v : β) :
    alLookup (alInsert m k v) k = some v := by
  induction m with
  | nil => simp [alInsert, alLookup]
  | cons p rest ih =>
    obtain ⟨k', v'⟩ := p
    by_cases h : k' = k
    · simp [alInsert, alLookup, h]
    · simp [alInsert, alLookup, h, ih]

lemma alLookup_alInsert_ne {β : Type} (m : List (String × β)) (k k' : String) (v : β)
    (h : k' ≠ k) : alLookup (alInsert m k' v) k = alLookup m k := by
  induction m with
  | nil => simp [alInsert, alLookup, h]
  | cons p rest ih =>
    obtain ⟨k0, v0⟩ := p
    by_cases h0 : k0 = k'
    · simp [alInsert, alLookup, h0, h]
    · simp only [alInsert, if_neg h0, alLookup]
      by_cases h1 : k0 = k
      · simp [h1]
      · simp [h1, ih]

lemma alLookup_alUpdate_self {β : Type} (m : List (String × β)) (k : String) (f : β → β) :
    alLookup (alUpdate m k f) k = (alLookup m k).map f := by
  induction m with
  | nil => simp [alUpdate, alLookup]
  | cons p rest ih =>
    obtain ⟨k0, v0⟩ := p
    by_cases h0 : k0 = k
    · simp [alUpdate, alLookup, h0]
    · simp [alUpdate, alLookup, h0, ih]

lemma alLookup_alUpdate_ne {β : Type} (m : List (String × β)) (k k' : String) (f : β → β)
    (h : k' ≠ k) : alLookup (alUpdate m k' f) k = alLookup m k := by
  induction m with
  | nil => simp [alUpdate, alLookup]
  | cons p rest ih =>
    obtain ⟨k0, v0⟩ := p
    by_cases h0 : k0 = k'
    · simp [alUpdate, alLookup, h0, h, Ne.symm h]
    · simp only [alUpdate, if_neg h0, alLookup]
      by_cases h1 : k0 = k
      · simp [h1]
      · simp [h1, ih]

/-- A run of catalog lines none of which is a message-definition line for
identifier `i`, starting from a current message other than `i`, never changes
the matrix entry stored at `i`. -/
lemma dbc_untouched (i : String) :
    ∀ (B : List String) (M : CanMatrix) (c : Option String),
      (∀ l ∈ B, msgLineId l ≠ some i) → c ≠ some i →
      alLookup (B.foldl dbcStep (M, c)).1 i = alLookup M i := by
  intro B
  induction B with
  | nil => intro M c _ _; rfl
  | cons l B ih =>
    intro M c hB hc
    show alLookup (B.foldl dbcStep (dbcStep (M, c) l)).1 i = alLookup M i
    cases hm : matchMessage (jsTrim l) with
    | some g =>
      have hgi : g.id ≠ i := by
        intro hgid
        exact hB l (by simp) (by simp [msgLineId, hm, hgid])
      simp only [dbcStep, hm]
      rw [ih _ _ (fun l' hl' => hB l' (by simp [hl'])) (by simp [hgi])]
      exact alLookup_alInsert_ne _ _ _ _ hgi
    | none =>
      cases hs : matchSignal (jsTrim l) with
      | some sg =>
        cases c with
        | none =>
          simp only [dbcStep, hm, hs]
          exact ih _ _ (fun l' hl' => hB l' (by simp [hl'])) hc
        | some cid =>
          have hcid : cid ≠ i := fun hh => hc (by rw [hh])
          simp only [dbcStep, hm, hs]
          rw [ih _ _ (fun l' hl' => hB l' (by simp [hl'])) hc]
          exact alLookup_alUpdate_ne _ _ _ _ hcid
      | none =>
        simp only [dbcStep, hm, hs]
        exact ih _ _ (fun l' hl' => hB l' (by simp [hl'])) hc

/-- While the current message is `i` and no later line re-declares `i`, the
entry at `i` accumulates exactly the signal lines before the next
message-definition line. -/
lemma dbc_attach (i : String) :
    ∀ (B : List String) (M : CanMatrix) (msg : MessageDefinition),
      alLookup M i = some msg → (∀ l ∈ B, msgLineId l ≠ some i) →
      alLookup (B.foldl dbcStep (M, some i)).1 i
        = some { msg with signals := attachSigs msg.signals B } := by
  intro B
  induction B with
  | nil => intro M msg hM _; simpa [attachSigs] using hM
  | cons l B ih =>
    intro M msg hM hB
    show alLookup (B.foldl dbcStep (dbcStep (M, some i) l)).1 i = _
    cases hm : matchMessage (jsTrim l) with
    | some g =>
      have hgi : g.id ≠ i := by
        intro hgid
        exact hB l (by simp) (by simp [msgLineId, hm, hgid])
      rw [show attachSigs msg.signals (l :: B) = msg.signals by simp [attachSigs, hm]]
      simp only [dbcStep, hm]
      rw [dbc_untouched i B _ _ (fun l' hl' => hB l' (by simp [hl'])) (by simp [hgi])]
      rw [alLookup_alInsert_ne _ _ _ _ hgi, hM]
    | none =>
      cases hs : matchSignal (jsTrim l) with
      | some sg =>
        simp only [dbcStep, hm, hs]
        have hM' : alLookup (alUpdate M i
            (fun m => { m with signals := alInsert m.signals sg.name (mkSignal sg) })) i
            = some { msg with signals := alInsert msg.signals sg.name (mkSignal sg) } := by
          rw [alLookup_alUpdate_self, hM]
          rfl
        rw [ih _ _ hM' (fun l' hl' => hB l' (by simp [hl']))]
        rw [show attachSigs msg.signals (l :: B)
            = attachSigs (alInsert msg.signals sg.name (mkSignal sg)) B by
          simp [attachSigs, hm, hs]]
      | none =>
        simp only [dbcStep, hm, hs]
        rw [ih _ _ hM (fun l' hl' => hB l' (by simp [hl']))]
        rw [show attachSigs msg.signals (l :: B) = attachSigs msg.signals B by
          simp [attachSigs, hm, hs]]

/-- C10: when a message-definition line for identifier `g.id` is followed only
by lines that never re-declare that identifier, the matrix maps `g.id` to the
message built from that line alone — its name and declared length come from the
later declaration, its signal mapping starts empty and collects exactly the
signal lines that follow it (up to the next message line). Any earlier
declaration of the same identifier and the signals attached under it (in the
prefix `A`) are discarded by the overwriting insert. -/
theorem c10_duplicate_message_last_wins (A B : List String) (m2 : String) (g : MsgGroups)
    (hm : matchMessage (jsTrim m2) = some g)
    (hB : ∀ l ∈ B, msgLineId l ≠ some g.id) :
    alLookup (parseDbcLines (A ++ m2 :: B)) g.id
      = some { name := g.name, dlc := digitsToNat g.dlc.data,
               signals := attachSigs [] B } := by
  unfold parseDbcLines
  rw [List.foldl_append]
  show alLookup (B.foldl dbcStep
      (dbcStep (A.foldl dbcStep (([] : CanMatrix), (none : Option String))) m2)).1 g.id = _
  have hstep : dbcStep (A.foldl dbcStep (([] : CanMatrix), (none : Option String))) m2
      = (alInsert (A.foldl dbcStep (([] : CanMatrix), (none : Option String))).1 g.id
          { name := g.name, dlc := digitsToNat g.dlc.data, signals := [] }, some g.id) := by
    simp [dbcStep, hm]
  rw [hstep]
  exact dbc_attach g.id B _ _ (alLookup_alInsert_self _ _ _) hB

/-- Concrete instance of the C10 contract: two `BO_` lines declare identifier
`5`; the matrix keeps only the second message and the signal line following
it. -/
theorem c10_duplicate_message_last_wins_witness :
    matchMessage (jsTrim "BO_ 5 Second : 8 XX")
      = some ({ id := "5", name := "Second", dlc := "8", rest := "XX" } : MsgGroups) ∧
    (∀ l ∈ ["SG_ B : 0|8@1+ (2,0) \"v\""], msgLineId l ≠
      some ({ id := "5", name := "Second", dlc := "8", rest := "XX" } : MsgGroups).id) ∧
    alLookup (parseDbcLines (["BO_ 5 First : 8 XX", "SG_ A : 0|8@1+ (1,0) \"u\""]
        ++ "BO_ 5 Second : 8 XX" :: ["SG_ B : 0|8@1+ (2,0) \"v\""]))
      ({ id := "5", name := "Second", dlc := "8", rest := "XX" } : MsgGroups).id
      = some { name := ({ id := "5", name := "Second", dlc := "8",
                          rest := "XX" } : MsgGroups).name,
               dlc := digitsToNat ({ id := "5", name := "Second", dlc := "8",
                                     rest := "XX" } : MsgGroups).dlc.data,
               signals := attachSigs [] ["SG_ B : 0|8@1+ (2,0) \"v\""] } :=
  ⟨by decide, by decide,
   c10_duplicate_message_last_wins
     ["BO_ 5 First : 8 XX", "SG_ A : 0|8@1+ (1,0) \"u\""]
     ["SG_ B : 0|8@1+ (2,0) \"v\""] "BO_ 5 Second : 8 XX"
     { id := "5", name := "Second", dlc := "8", rest := "XX" }
     (by decide) (by decide)⟩

end CanLog
